import Mathlib

/-!
# A verification model of the kotoba interpreter

Shallow embedding of the kotoba tree-walking interpreter
(`src/lexer.rs`-era pipeline: spec §4.2 lexer → `src/parser.rs` →
`src/runtime.rs`), with theorems settling the frozen claims about it.

Modelling conventions:
* Rust `f64` numbers are modelled as exact rationals `ℚ`; every numeric
  computation appearing in a claim (small integer literals, `>` on them)
  is exact in `f64`, so the model agrees with the code there.
* The mutable `Rc<RefCell<Env>>` scope chain is modelled as an explicit
  state `ESt := List Scope` (innermost scope first) threaded through
  evaluation; entering a `Program` block pushes an empty scope and leaving
  pops it, which is exactly the child-extend/discard of `Env::extend`.
* Process-terminating branches (`std::process::exit`, `panic!`,
  `unwrap()` on `Err`, `unreachable!()`) are the `fatal` outcome;
  `Err(Internal::Return(v))` is the `ret` outcome.
* Evaluation recursion is bounded by a fuel counter decremented at every
  recursive call (`oof` = out of fuel); the code's only source of
  non-termination is the `while` loop.
* Builtin functions (`src/runtime/prelude.rs`) are modelled by their
  value behaviour; their printing side effect is not observed.
-/

namespace Kotoba

/-- Runtime value; Rust `Type` in `src/runtime.rs` (`Number(f64)` modelled
as `ℚ`, see the header note). -/
inductive Ty where
  | Number (n : ℚ)
  | Boolean (b : Bool)
  | String (s : String)
  | Nil
  deriving DecidableEq

/-- Operators; Rust `Op` in `src/parser.rs`. -/
inductive Op where
  | Bang | Star | Slash | Plus | Minus | Percent
  | Greater | GreaterEqual | Less | LessEqual
  | EqualEqual | BangEqual | And | Or
  deriving DecidableEq

/-- AST; Rust `AstNode` in `src/parser.rs`. -/
inductive AstNode where
  | Program (stmts : List AstNode)
  | ProgramRoot (stmts : List AstNode)
  | Number (n : ℚ)
  | Boolean (b : Bool)
  | StringLiteral (s : String)
  | Identifier (id : String)
  | Nil
  | Grouping (e : AstNode)
  | FnCall (identifier : String) (args : List AstNode)
  | RetStmt (e : AstNode)
  | UnaryExpr (operator : Op) (operand : AstNode)
  | BinaryExpr (operator : Op) (lhs : AstNode) (rhs : AstNode)
  | Assignment (identifier : String) (operand : AstNode) (nonlocal : Bool)
  | IfStmt (condition : AstNode) (then_body : AstNode) (else_body : Option AstNode)
  | WhileStmt (condition : AstNode) (body : AstNode)
  | FnStmt (identifier : String) (params : List String) (body : AstNode)

/-- The four builtin callables registered by `src/runtime/prelude.rs`. -/
inductive Builtin where
  | print | println | add_two | div
  deriving DecidableEq

/-- One scope record of the environment chain: Rust `Env`'s `ctx_var` and
`ctx_fn` hash maps, as association lists (insert overwrites). -/
structure Scope where
  vars : List (String × Ty)
  fns : List (String × Builtin)
  deriving DecidableEq

/-- The scope chain, innermost scope first; Rust's `Env` + `parent` links. -/
abbrev ESt := List Scope

/-- Association-list lookup (HashMap `get`). -/
def lookupA {α : Type} : List (String × α) → String → Option α
  | [], _ => none
  | (k, v) :: rest, id => if k = id then some v else lookupA rest id

/-- Association-list insert-or-overwrite (HashMap `insert`). -/
def listInsert : List (String × Ty) → String → Ty → List (String × Ty)
  | [], id, v => [(id, v)]
  | (k, w) :: rest, id, v =>
    if k = id then (id, v) :: rest else (k, w) :: listInsert rest id v

/-- Variable lookup walking the chain; the `AstNode::Identifier` arm of
`Env::eval_internal` (current scope, else parent, else nothing). -/
def lookupVar : ESt → String → Option Ty
  | [], _ => none
  | s :: rest, id =>
    match lookupA s.vars id with
    | some v => some v
    | none => lookupVar rest id

/-- Default (local) assignment: insert into the innermost scope only
(`env.borrow_mut().ctx_var.insert` in the `Assignment` arm). -/
def insertLocal : ESt → String → Ty → ESt
  | [], _, _ => []
  | s :: rest, id, v => { s with vars := listInsert s.vars id v } :: rest

/-- `Env::update_value`: mutate the binding in the first scope of the
chain that has it; if no scope has it, do nothing. -/
def updateValue : ESt → String → Ty → ESt
  | [], _, _ => []
  | s :: rest, id, v =>
    if (lookupA s.vars id).isSome then
      { s with vars := listInsert s.vars id v } :: rest
    else
      s :: updateValue rest id v

/-- Walk the chain for a function binding (the `FnCall` arm's search):
returns the scopes above the match and the suffix starting at the scope
where the function was found (args are evaluated against that suffix). -/
def findFn : ESt → String → Option (List Scope × Builtin × ESt)
  | [], _ => none
  | s :: rest, id =>
    match lookupA s.fns id with
    | some b => some ([], b, s :: rest)
    | none =>
      match findFn rest id with
      | some (pre, b, suf) => some (s :: pre, b, suf)
      | none => none

/-- The process-terminating conditions of `src/runtime.rs`. -/
inductive Fatal where
  | undefVar        -- the no-such-variable panic of the `Identifier` arm
  | unaryType       -- `std::process::exit(2)`
  | binaryType      -- `std::process::exit(3)`
  | condType        -- `std::process::exit(5)`
  | unwrapRet       -- `.unwrap()` applied to `Err(Internal::Return(_))`
  | unreachableRet  -- the unreachable `RetStmt` arm of `eval_internal`
  | builtinPanic    -- the argument-mismatch panic of `add_two`/`div`
  deriving DecidableEq

/-- How evaluation of one node ends: a value, a `ret` unwind
(`Err(Internal::Return)`), process death (`fatal`), or out of fuel. -/
inductive Outcome where
  | ok (v : Ty) (st : ESt)
  | ret (v : Ty) (st : ESt)
  | fatal (f : Fatal)
  | oof
  deriving DecidableEq

end Kotoba

namespace Kotoba

/-- Result of `.unwrap()` on an evaluation result: a `ret` outcome is a
panic (there is no `Internal::Return` catch anywhere in the code). -/
inductive URes where
  | ok (v : Ty) (st : ESt)
  | fatal (f : Fatal)
  | oof

/-- `.unwrap()` on `Result<Type, Internal>`. -/
def unwrapO : Outcome → URes
  | .ok v st => .ok v st
  | .ret _ _ => .fatal .unwrapRet
  | .fatal f => .fatal f
  | .oof => .oof

/-- Structural equality of values: Rust's derived `PartialEq` on `Type`. -/
def tyEq (a b : Ty) : Bool := decide (a = b)

/-- `f64` truncation toward zero, on the rational model. -/
def ratTrunc (x : ℚ) : ℚ := if x < 0 then -(((-x).floor : ℤ) : ℚ) else ((x.floor : ℤ) : ℚ)

/-- Rust `%` remainder (sign of the dividend), on the rational model. -/
def ratRem (a b : ℚ) : ℚ := a - b * ratTrunc (a / b)

/-- The `BinaryExpr` arm's operator dispatch, arms in the source's match
order; `none` is the `std::process::exit(3)` binary-type-error branch. -/
def applyBin : Op → Ty → Ty → Option Ty
  | .EqualEqual, l, r => some (.Boolean (tyEq l r))
  | .BangEqual, l, r => some (.Boolean (!tyEq l r))
  | .And, .Boolean a, .Boolean b => some (.Boolean (a && b))
  | .Or, .Boolean a, .Boolean b => some (.Boolean (a || b))
  | op, .Number a, .Number b =>
    match op with
    | .Plus => some (.Number (a + b))
    | .Minus => some (.Number (a - b))
    | .Star => some (.Number (a * b))
    | .Slash => some (.Number (a / b))
    | .Percent => some (.Number (ratRem a b))
    | .Greater => some (.Boolean (Rat.blt b a))
    | .GreaterEqual => some (.Boolean (!Rat.blt a b))
    | .Less => some (.Boolean (Rat.blt a b))
    | .LessEqual => some (.Boolean (!Rat.blt b a))
    | _ => none
  | .Plus, .String a, .String b => some (.String (a ++ b))
  | _, _, _ => none

/-- Calling a builtin (`src/runtime/prelude.rs`); printing side effects
are not observed, `none` is the `panic!()` of `add_two`/`div`. -/
def callBuiltin : Builtin → List Ty → Option Ty
  | .print, _ => some .Nil
  | .println, _ => some .Nil
  | .add_two, [.Number a, .Number b] => some (.Number (a + b))
  | .add_two, _ => none
  | .div, [.Number q, .Number n] => some (.Boolean (tyEq (.Number (ratRem n q)) (.Number 0)))
  | .div, _ => none

/-- A fresh scope, as made by `Env::extend`. -/
def emptyScope : Scope := ⟨[], []⟩

/-- Dropping the child scope created for a `Program` block once the block
finishes (its parent chain, as mutated, survives). -/
def popSt : Outcome → Outcome
  | .ok v st => .ok v st.tail
  | .ret v st => .ret v st.tail
  | .fatal f => .fatal f
  | .oof => .oof

/-- The statement loop of the `AstNode::Program` arm: each non-`ret`
statement is evaluated and `.unwrap()`ed with its value discarded, a
direct `RetStmt` raises `Err(Internal::Return(value))`, and falling off
the end yields `Nil`. -/
def seqEvalBlock (step : AstNode → ESt → Outcome) : List AstNode → ESt → Outcome
  | [], st => .ok .Nil st
  | .RetStmt e :: _, st =>
    match unwrapO (step e st) with
    | .ok v st1 => .ret v st1
    | .fatal f => .fatal f
    | .oof => .oof
  | s :: rest, st =>
    match unwrapO (step s st) with
    | .ok _ st1 => seqEvalBlock step rest st1
    | .fatal f => .fatal f
    | .oof => .oof

/-- The statement loop of the `AstNode::ProgramRoot` arm: like a block's,
but it runs in the current environment (no child scope) and remembers the
last evaluated statement's value (`ret` accumulator, initially `Nil`). -/
def seqEvalRoot (step : AstNode → ESt → Outcome) : Ty → List AstNode → ESt → Outcome
  | acc, [], st => .ok acc st
  | _, .RetStmt e :: _, st =>
    match unwrapO (step e st) with
    | .ok v st1 => .ret v st1
    | .fatal f => .fatal f
    | .oof => .oof
  | _, s :: rest, st =>
    match unwrapO (step s st) with
    | .ok v st1 => seqEvalRoot step v rest st1
    | .fatal f => .fatal f
    | .oof => .oof

/-- Result of evaluating a call's argument list. -/
inductive ArgsRes where
  | ok (vals : List Ty) (st : ESt)
  | fatal (f : Fatal)
  | oof

/-- Argument evaluation of the `FnCall` arm: each argument is evaluated
and `.unwrap()`ed in order, threading the environment. -/
def argsEval (step : AstNode → ESt → Outcome) : List AstNode → ESt → ArgsRes
  | [], st => .ok [] st
  | a :: rest, st =>
    match unwrapO (step a st) with
    | .ok v st1 =>
      match argsEval step rest st1 with
      | .ok vs st2 => .ok (v :: vs) st2
      | .fatal f => .fatal f
      | .oof => .oof
    | .fatal f => .fatal f
    | .oof => .oof

/-- One unfolding of `Env::eval_internal`, with `prev` standing for the
recursive occurrences (one fuel tick per recursive call). Arms follow
`src/runtime.rs` lines 77-246. -/
def evalF (prev : AstNode → ESt → Outcome) : AstNode → ESt → Outcome
  | .Nil, st => .ok .Nil st
  | .Number n, st => .ok (.Number n) st
  | .Boolean b, st => .ok (.Boolean b) st
  | .StringLiteral s, st => .ok (.String s) st
  | .Grouping e, st => prev e st
  | .Identifier id, st =>
    match lookupVar st id with
    | some v => .ok v st
    | none => .fatal .undefVar
  | .FnCall id args, st =>
    match findFn st id with
    | none => .ok .Nil st
    | some (pre, b, suf) =>
      match argsEval prev args suf with
      | .ok vals st1 =>
        match callBuiltin b vals with
        | some v => .ok v (pre ++ st1)
        | none => .fatal .builtinPanic
      | .fatal f => .fatal f
      | .oof => .oof
  | .Program stmts, st => popSt (seqEvalBlock prev stmts (emptyScope :: st))
  | .ProgramRoot stmts, st => seqEvalRoot prev .Nil stmts st
  | .Assignment id e nl, st =>
    match unwrapO (prev e st) with
    | .ok v st1 => .ok .Nil (if nl then updateValue st1 id v else insertLocal st1 id v)
    | .fatal f => .fatal f
    | .oof => .oof
  | .IfStmt c t e, st =>
    match unwrapO (prev c st) with
    | .ok (.Boolean true) st1 => prev t st1
    | .ok (.Boolean false) st1 =>
      match e with
      | some p => prev p st1
      | none => .ok .Nil st1
    | .ok _ _ => .fatal .condType
    | .fatal f => .fatal f
    | .oof => .oof
  | .WhileStmt c b, st =>
    match unwrapO (prev c st) with
    | .ok (.Boolean true) st1 =>
      match prev b st1 with
      | .ok _ st2 => prev (.WhileStmt c b) st2
      | .ret v st2 => .ret v st2
      | .fatal f => .fatal f
      | .oof => .oof
    | .ok _ st1 => .ok .Nil st1
    | .fatal f => .fatal f
    | .oof => .oof
  | .FnStmt _ _ _, st => .ok .Nil st
  | .UnaryExpr op e, st =>
    match unwrapO (prev e st) with
    | .ok v st1 =>
      match op, v with
      | .Minus, .Number n => .ok (.Number (-n)) st1
      | .Bang, .Boolean b => .ok (.Boolean (!b)) st1
      | _, _ => .fatal .unaryType
    | .fatal f => .fatal f
    | .oof => .oof
  | .BinaryExpr op l r, st =>
    match unwrapO (prev l st) with
    | .ok v1 st1 =>
      match unwrapO (prev r st1) with
      | .ok v2 st2 =>
        match applyBin op v1 v2 with
        | some v => .ok v st2
        | none => .fatal .binaryType
      | .fatal f => .fatal f
      | .oof => .oof
    | .fatal f => .fatal f
    | .oof => .oof
  | .RetStmt _, _ => .fatal .unreachableRet

/-- `Env::eval_internal`, with fuel; defined through `Nat.rec` so that it
computes definitionally. -/
def evalI : Nat → AstNode → ESt → Outcome :=
  fun fuel =>
    Nat.rec (motive := fun _ => AstNode → ESt → Outcome)
      (fun _ _ => .oof) (fun _ prev => evalF prev) fuel

/-- `Env::eval`: evaluate and `.unwrap()` the result. A `ret` escaping to
the top, a fatal condition, or fuel exhaustion all leave no value
(`none`); the Rust `eval` panics/exits there instead of returning. -/
def topEval (fuel : Nat) (a : AstNode) (st : ESt) : Option Ty :=
  match evalI fuel a st with
  | .ok v _ => some v
  | _ => none

/-- The session-root environment, `Env::new()` with the prelude's
builtin table. -/
def initEnv : ESt :=
  [⟨[], [("print", .print), ("println", .println),
         ("add_two", .add_two), ("div", .div)]⟩]

/-- Modelled from the spec: the token kinds of the lexer consumed by
`src/parser.rs` (§3, §4.2). The `src/lexer.rs` in the tree is a stale
earlier lexer without the keyword/punctuation tokens and the
`peek`/`expect`/`expect_any`/`expect_identifier` interface the parser
uses, so the token set is taken from the spec. Source positions, which
only ride along inside error values, are omitted. -/
inductive Token where
  | Number (n : ℚ)
  | Boolean (b : Bool)
  | Identifier (s : String)
  | StringLiteral (s : String)
  | Nil
  | Equal | EqualEqual | Bang | BangEqual
  | Greater | GreaterEqual | Less | LessEqual
  | Plus | Minus | Star | Slash | Percent
  | OpenParen | CloseParen | Colon | Comma | Semicolon
  | And | Or | If | Else | While | Fn | Ret | Nonlocal
  deriving DecidableEq

/-- An identifier byte after the first: alphanumeric or underscore. -/
def isIdentChar (c : Char) : Bool := c.isAlphanum || c = '_'

/-- Decimal digits to a natural number. -/
def digitsToNat (cs : List Char) : Nat :=
  cs.foldl (fun acc c => acc * 10 + (c.toNat - 48)) 0

/-- Numeric literal value from integer and fractional digit runs (an
integer literal is cast directly). -/
def numVal (ds fs : List Char) : ℚ :=
  if fs.isEmpty then (digitsToNat ds : ℚ)
  else (digitsToNat ds : ℚ) + (digitsToNat fs : ℚ) / ((10 : ℚ) ^ fs.length)

/-- The keyword table of spec §4.2; unmatched runs become identifiers. -/
def kwToken (s : String) : Token :=
  if s = "true" then .Boolean true
  else if s = "false" then .Boolean false
  else if s = "nil" then .Nil
  else if s = "and" then .And
  else if s = "or" then .Or
  else if s = "if" then .If
  else if s = "else" then .Else
  else if s = "while" then .While
  else if s = "fn" then .Fn
  else if s = "ret" then .Ret
  else if s = "nonlocal" then .Nonlocal
  else .Identifier s

/-- Modelled from the spec: the lexer classification loop of §4.2
(maximal munch; 2-byte lookahead for `.` in numbers and for the doubled
operator forms; whitespace and unrecognized bytes skipped; an
unterminated string is the UnterminatedString condition, here `none`).
Each step consumes at least one byte; the fuel is decremented once per
step and `lexString` supplies more fuel than there are bytes. -/
def lexGo : Nat → List Char → Option (List Token)
  | 0, _ => none
  | _ + 1, [] => some []
  | n + 1, c :: rest =>
    if c.isDigit then
      let ds := (c :: rest).takeWhile Char.isDigit
      let r1 := (c :: rest).dropWhile Char.isDigit
      match r1 with
      | '.' :: d :: r2 =>
        if d.isDigit then
          let fs := (d :: r2).takeWhile Char.isDigit
          let r3 := (d :: r2).dropWhile Char.isDigit
          (lexGo n r3).map (fun ts => .Number (numVal ds fs) :: ts)
        else (lexGo n r1).map (fun ts => .Number (numVal ds []) :: ts)
      | _ => (lexGo n r1).map (fun ts => .Number (numVal ds []) :: ts)
    else if c.isAlpha || c = '_' then
      let run := (c :: rest).takeWhile isIdentChar
      let r1 := (c :: rest).dropWhile isIdentChar
      (lexGo n r1).map (fun ts => kwToken (String.mk run) :: ts)
    else if c = '"' then
      let content := rest.takeWhile (fun ch => ch ≠ '"')
      let r1 := rest.dropWhile (fun ch => ch ≠ '"')
      match r1 with
      | '"' :: r2 => (lexGo n r2).map (fun ts => .StringLiteral (String.mk content) :: ts)
      | _ => none
    else if c = '=' then
      match rest with
      | '=' :: r2 => (lexGo n r2).map (fun ts => .EqualEqual :: ts)
      | _ => (lexGo n rest).map (fun ts => .Equal :: ts)
    else if c = '!' then
      match rest with
      | '=' :: r2 => (lexGo n r2).map (fun ts => .BangEqual :: ts)
      | _ => (lexGo n rest).map (fun ts => .Bang :: ts)
    else if c = '>' then
      match rest with
      | '=' :: r2 => (lexGo n r2).map (fun ts => .GreaterEqual :: ts)
      | _ => (lexGo n rest).map (fun ts => .Greater :: ts)
    else if c = '<' then
      match rest with
      | '=' :: r2 => (lexGo n r2).map (fun ts => .LessEqual :: ts)
      | _ => (lexGo n rest).map (fun ts => .Less :: ts)
    else if c = '+' then (lexGo n rest).map (fun ts => .Plus :: ts)
    else if c = '-' then (lexGo n rest).map (fun ts => .Minus :: ts)
    else if c = '*' then (lexGo n rest).map (fun ts => .Star :: ts)
    else if c = '/' then (lexGo n rest).map (fun ts => .Slash :: ts)
    else if c = '%' then (lexGo n rest).map (fun ts => .Percent :: ts)
    else if c = '(' then (lexGo n rest).map (fun ts => .OpenParen :: ts)
    else if c = ')' then (lexGo n rest).map (fun ts => .CloseParen :: ts)
    else if c = ':' then (lexGo n rest).map (fun ts => .Colon :: ts)
    else if c = ',' then (lexGo n rest).map (fun ts => .Comma :: ts)
    else if c = ';' then (lexGo n rest).map (fun ts => .Semicolon :: ts)
    else (lexGo n rest)

/-- Modelled from the spec: tokenize a whole source string (§4.2). -/
def lexString (s : String) : Option (List Token) :=
  lexGo (s.data.length + 1) s.data

/-- The parse errors of `src/parser.rs` (`enum Error`), carrying the
offending token. -/
inductive PError where
  | UnclosedGrouping (t : Token)
  | UnexpectedToken (t : Token)
  | UnexpectedEof
  | MissingColon (t : Token)
  | MissingSemicolon (t : Token)
  | FnCallMissingCloseParen (t : Token)
  | MissingIdentifier (t : Token)
  | MissingParen (t : Token)

/-- The parser's process-terminating conditions. -/
inductive PanicKind where
  | notAnAssignment -- the non-assignment-after-`nonlocal` panic in `parse_program`
  | unwrapNoneIdent -- `expect_identifier().unwrap()` in `parse_fn`'s parameter loop
  | opUnimplemented -- the unimplemented arm of `From<&TokenKind> for Op`
  deriving DecidableEq

/-- Result of one parsing function: a node with the rest of the token
stream, a structured error (with the tokens left after the failed parse,
since the Rust lexer stays consumed), a panic, or out of fuel. -/
inductive PRes where
  | ok (a : AstNode) (rest : List Token)
  | err (e : PError) (rest : List Token)
  | pan (k : PanicKind)
  | oof

/-- Result of `parse_fn`'s parameter-list loop. -/
inductive PListRes where
  | ok (ps : List String) (rest : List Token)
  | pan (k : PanicKind)
  | oof

/-- The `?` operator on a parsing result. -/
def PRes.bindA (r : PRes) (f : AstNode → List Token → PRes) : PRes :=
  match r with
  | .ok a rest => f a rest
  | .err e rest => .err e rest
  | .pan k => .pan k
  | .oof => .oof

/-- `Lexer::expect`: consume the head token only when it matches. -/
def expectT (k : Token) : List Token → Option (List Token)
  | t :: rest => if t = k then some rest else none
  | [] => none

/-- `Lexer::expect_any`: consume and return the head token when it is one
of the given kinds. -/
def expectAnyT (ks : List Token) : List Token → Option (Token × List Token)
  | t :: rest => if ks.contains t then some (t, rest) else none
  | [] => none

/-- `Lexer::expect_identifier`. -/
def expectIdentT : List Token → Option (String × List Token)
  | .Identifier s :: rest => some (s, rest)
  | _ => none

/-- `From<&TokenKind> for Op`; `none` is its `unimplemented!()` arm. -/
def opOfToken : Token → Option Op
  | .Bang => some .Bang
  | .Star => some .Star
  | .Slash => some .Slash
  | .Plus => some .Plus
  | .Minus => some .Minus
  | .Percent => some .Percent
  | .Greater => some .Greater
  | .GreaterEqual => some .GreaterEqual
  | .Less => some .Less
  | .LessEqual => some .LessEqual
  | .EqualEqual => some .EqualEqual
  | .BangEqual => some .BangEqual
  | .And => some .And
  | .Or => some .Or
  | _ => none

/-- The trailing close-paren check shared by both exits of the call-
argument collection in `parse_identifier`. -/
def fnCallClose (id : String) (t : Token) (args : List AstNode) (toks : List Token) : PRes :=
  match expectT .CloseParen toks with
  | some r => .ok (.FnCall id args) r
  | none => .err (.FnCallMissingCloseParen t) toks

/-- The bundle of mutually recursive parsing functions of
`src/parser.rs`; each `…Loop` field is one of the source's `while` loops
with its accumulator made explicit. -/
structure PB where
  program : List Token → PRes
  programLoop : List AstNode → List Token → PRes
  pIf : Token → List Token → PRes
  pWhile : Token → List Token → PRes
  pFn : Token → List Token → PRes
  paramsLoop : List String → List Token → PListRes
  expression : List Token → PRes
  disjunction : List Token → PRes
  disjLoop : AstNode → List Token → PRes
  conjunction : List Token → PRes
  conjLoop : AstNode → List Token → PRes
  equality : List Token → PRes
  comparison : List Token → PRes
  modulo : List Token → PRes
  modLoop : AstNode → List Token → PRes
  addition : List Token → PRes
  addLoop : AstNode → List Token → PRes
  multiplication : List Token → PRes
  mulLoop : AstNode → List Token → PRes
  unary : List Token → PRes
  primary : List Token → PRes
  identifierP : String → Token → List Token → PRes
  argsLoop : String → Token → List AstNode → List Token → PRes
  grouping : Token → List Token → PRes

/-- The fuel-exhausted bundle. -/
def pb0 : PB where
  program := fun _ => .oof
  programLoop := fun _ _ => .oof
  pIf := fun _ _ => .oof
  pWhile := fun _ _ => .oof
  pFn := fun _ _ => .oof
  paramsLoop := fun _ _ => .oof
  expression := fun _ => .oof
  disjunction := fun _ => .oof
  disjLoop := fun _ _ => .oof
  conjunction := fun _ => .oof
  conjLoop := fun _ _ => .oof
  equality := fun _ => .oof
  comparison := fun _ => .oof
  modulo := fun _ => .oof
  modLoop := fun _ _ => .oof
  addition := fun _ => .oof
  addLoop := fun _ _ => .oof
  multiplication := fun _ => .oof
  mulLoop := fun _ _ => .oof
  unary := fun _ => .oof
  primary := fun _ => .oof
  identifierP := fun _ _ _ => .oof
  argsLoop := fun _ _ _ _ => .oof
  grouping := fun _ _ => .oof

/-- One unfolding of the recursive-descent parser, `prev` standing for
every recursive call (one fuel tick per call). Bodies follow
`src/parser.rs` lines 118-450. -/
def pbStep (prev : PB) : PB where
  program := fun toks => prev.programLoop [] toks
  programLoop := fun acc toks =>
    match toks with
    | [] => .ok (.Program acc) []
    | t :: rest =>
      match t with
      | .Semicolon => .ok (.Program acc) (t :: rest)
      | .If => (prev.pIf t rest).bindA fun s r2 => prev.programLoop (acc ++ [s]) r2
      | .While => (prev.pWhile t rest).bindA fun s r2 => prev.programLoop (acc ++ [s]) r2
      | .Fn => (prev.pFn t rest).bindA fun s r2 => prev.programLoop (acc ++ [s]) r2
      | .Ret => (prev.expression rest).bindA fun e r2 =>
          prev.programLoop (acc ++ [.RetStmt e]) r2
      | .Nonlocal =>
        match prev.expression rest with
        | .ok (.Assignment id e _) r2 =>
          prev.programLoop (acc ++ [.Assignment id e true]) r2
        | .ok _ _ => .pan .notAnAssignment
        | .err e r => .err e r
        | .pan k => .pan k
        | .oof => .oof
      | _ =>
        (prev.expression (t :: rest)).bindA fun e r2 =>
          match expectT .Comma r2 with
          | some r3 => prev.programLoop (acc ++ [e]) r3
          | none => .ok (.Program (acc ++ [e])) r2
  pIf := fun t toks =>
    (prev.expression toks).bindA fun cond r1 =>
      match expectT .Colon r1 with
      | none => .err (.MissingColon t) r1
      | some r2 =>
        (prev.program r2).bindA fun thenB r3 =>
          match expectT .Else r3 with
          | some r4 =>
            (prev.program r4).bindA fun elseB r5 =>
              match expectT .Semicolon r5 with
              | none => .err (.MissingSemicolon t) r5
              | some r6 => .ok (.IfStmt cond thenB (some elseB)) r6
          | none =>
            match expectT .Semicolon r3 with
            | none => .err (.MissingSemicolon t) r3
            | some r6 => .ok (.IfStmt cond thenB none) r6
  pWhile := fun t toks =>
    (prev.expression toks).bindA fun cond r1 =>
      match expectT .Colon r1 with
      | none => .err (.MissingColon t) r1
      | some r2 =>
        (prev.program r2).bindA fun body r3 =>
          match expectT .Semicolon r3 with
          | none => .err (.MissingSemicolon t) r3
          | some r4 => .ok (.WhileStmt cond body) r4
  pFn := fun t toks =>
    match expectIdentT toks with
    | none => .err (.MissingIdentifier t) toks
    | some (id, r1) =>
      match expectT .OpenParen r1 with
      | none => .err (.MissingParen t) r1
      | some r2 =>
        let collected : PListRes :=
          match expectIdentT r2 with
          | none => .ok [] r2
          | some (p, r3) => prev.paramsLoop [p] r3
        match collected with
        | .pan k => .pan k
        | .oof => .oof
        | .ok params r4 =>
          match expectT .CloseParen r4 with
          | none => .err (.MissingParen t) r4
          | some r5 =>
            match expectT .Colon r5 with
            | none => .err (.MissingColon t) r5
            | some r6 =>
              (prev.program r6).bindA fun body r7 =>
                match expectT .Semicolon r7 with
                | none => .err (.MissingSemicolon t) r7
                | some r8 => .ok (.FnStmt id params body) r8
  paramsLoop := fun ps toks =>
    match expectT .Comma toks with
    | none => .ok ps toks
    | some r1 =>
      match expectIdentT r1 with
      | none => .pan .unwrapNoneIdent
      | some (p, r2) => prev.paramsLoop (ps ++ [p]) r2
  expression := fun toks => prev.disjunction toks
  disjunction := fun toks =>
    (prev.conjunction toks).bindA fun a r => prev.disjLoop a r
  disjLoop := fun a toks =>
    match expectT .Or toks with
    | none => .ok a toks
    | some r1 =>
      (prev.conjunction r1).bindA fun b r2 => prev.disjLoop (.BinaryExpr .Or a b) r2
  conjunction := fun toks =>
    (prev.equality toks).bindA fun a r => prev.conjLoop a r
  conjLoop := fun a toks =>
    match expectT .And toks with
    | none => .ok a toks
    | some r1 =>
      (prev.equality r1).bindA fun b r2 => prev.conjLoop (.BinaryExpr .And a b) r2
  equality := fun toks =>
    (prev.comparison toks).bindA fun l r1 =>
      match expectAnyT [.EqualEqual, .BangEqual] r1 with
      | some (t, r2) =>
        match opOfToken t with
        | some op => (prev.comparison r2).bindA fun rr r3 => .ok (.BinaryExpr op l rr) r3
        | none => .pan .opUnimplemented
      | none => .ok l r1
  comparison := fun toks =>
    (prev.modulo toks).bindA fun l r1 =>
      match expectAnyT [.Greater, .GreaterEqual, .Less, .LessEqual] r1 with
      | some (t, r2) =>
        match opOfToken t with
        | some op => (prev.modulo r2).bindA fun rr r3 => .ok (.BinaryExpr op l rr) r3
        | none => .pan .opUnimplemented
      | none => .ok l r1
  modulo := fun toks =>
    (prev.addition toks).bindA fun a r => prev.modLoop a r
  modLoop := fun a toks =>
    match expectT .Percent toks with
    | none => .ok a toks
    | some r1 =>
      (prev.addition r1).bindA fun b r2 => prev.modLoop (.BinaryExpr .Percent a b) r2
  addition := fun toks =>
    (prev.multiplication toks).bindA fun a r => prev.addLoop a r
  addLoop := fun a toks =>
    match expectAnyT [.Plus, .Minus] toks with
    | none => .ok a toks
    | some (t, r1) =>
      match opOfToken t with
      | some op =>
        (prev.multiplication r1).bindA fun b r2 => prev.addLoop (.BinaryExpr op a b) r2
      | none => .pan .opUnimplemented
  multiplication := fun toks =>
    (prev.unary toks).bindA fun a r => prev.mulLoop a r
  mulLoop := fun a toks =>
    match expectAnyT [.Star, .Slash] toks with
    | none => .ok a toks
    | some (t, r1) =>
      match opOfToken t with
      | some op =>
        (prev.unary r1).bindA fun b r2 => prev.mulLoop (.BinaryExpr op a b) r2
      | none => .pan .opUnimplemented
  unary := fun toks =>
    match expectAnyT [.Bang, .Minus] toks with
    | some (t, r1) =>
      match opOfToken t with
      | some op => (prev.unary r1).bindA fun e r2 => .ok (.UnaryExpr op e) r2
      | none => .pan .opUnimplemented
    | none => prev.primary toks
  primary := fun toks =>
    match toks with
    | [] => .err .UnexpectedEof []
    | t :: rest =>
      match t with
      | .Number n => .ok (.Number n) rest
      | .Boolean b => .ok (.Boolean b) rest
      | .StringLiteral s => .ok (.StringLiteral s) rest
      | .Identifier id => prev.identifierP id t rest
      | .Nil => .ok .Nil rest
      | .OpenParen => prev.grouping t rest
      | _ => .err (.UnexpectedToken t) rest
  identifierP := fun id t toks =>
    match expectT .OpenParen toks with
    | some r1 =>
      match expectT .CloseParen r1 with
      | some r2 => .ok (.FnCall id []) r2
      | none =>
        match r1 with
        | [] => .err (.FnCallMissingCloseParen t) r1
        | _ :: _ =>
          match prev.expression r1 with
          | .ok arg r2 => prev.argsLoop id t [arg] r2
          | .err _ r2 => fnCallClose id t [] r2
          | .pan k => .pan k
          | .oof => .oof
    | none =>
      match expectT .Equal toks with
      | some r1 =>
        (prev.expression r1).bindA fun e r2 => .ok (.Assignment id e false) r2
      | none => .ok (.Identifier id) toks
  argsLoop := fun id t args toks =>
    match expectT .Comma toks with
    | some r1 =>
      (prev.expression r1).bindA fun a r2 => prev.argsLoop id t (args ++ [a]) r2
    | none => fnCallClose id t args toks
  grouping := fun t toks =>
    match prev.expression toks with
    | .ok e r1 =>
      match expectT .CloseParen r1 with
      | some r2 => .ok (.Grouping e) r2
      | none => .err (.UnclosedGrouping t) r1
    | .err e r1 => .err e r1
    | .pan k => .pan k
    | .oof => .oof

/-- The parser bundle at a given fuel, defined through `Nat.rec` so that
it computes definitionally. -/
def pb : Nat → PB :=
  fun fuel => Nat.rec (motive := fun _ => PB) pb0 (fun _ prev => pbStep prev) fuel

/-- How `Parser::parse` ends: an AST handed to the caller, a process
abort (panic), or out of fuel. -/
inductive TopRes where
  | ast (a : AstNode)
  | panicked
  | oof

/-- `Parser::parse`: drive `parse_program`, rewrap its `Program` as
`ProgramRoot`, turn any `Err` into the neutral `Nil` program (leftover
tokens are dropped); a panic aborts the process. -/
def parseTop (toks : List Token) (fuel : Nat) : TopRes :=
  match (pb fuel).program toks with
  | .ok (.Program p) _ => .ast (.ProgramRoot p)
  | .ok _ _ => .panicked
  | .err _ _ => .ast .Nil
  | .pan _ => .panicked
  | .oof => .oof

/-- Lex then parse a source string (`none` = lexer-level failure). -/
def parseSrc (s : String) (fuel : Nat) : Option TopRes :=
  (lexString s).map (fun toks => parseTop toks fuel)

/-- The whole pipeline on one source string in a fresh session:
lex, parse, `Env::eval` against `Env::new()`; `none` when any stage
aborts or the result of a stage is not a value. -/
def runSrc (s : String) (fuel : Nat) : Option Ty :=
  match lexString s with
  | none => none
  | some toks =>
    match parseTop toks fuel with
    | .ast a => topEval fuel a initEnv
    | _ => none

/-- Is a node a direct `ret` statement (the case the statement loops of
`Program`/`ProgramRoot` treat specially)? -/
def isRet : AstNode → Bool
  | .RetStmt _ => true
  | _ => false

/-- The literal node whose evaluation yields a given value. -/
def litOf : Ty → AstNode
  | .Number n => .Number n
  | .Boolean b => .Boolean b
  | .String s => .StringLiteral s
  | .Nil => .Nil

/-- A node wrapped in `n` `Grouping` layers (`n` pairs of parentheses). -/
def nGroup : Nat → AstNode → AstNode
  | 0, e => e
  | n + 1, e => .Grouping (nGroup n e)

/-- Big-step evaluation: some fuel settles the node at this outcome. -/
def EvalsTo (a : AstNode) (st : ESt) (o : Outcome) : Prop :=
  o ≠ .oof ∧ ∃ f, evalI f a st = o

theorem evalI_zero (a : AstNode) (st : ESt) : evalI 0 a st = .oof := rfl

theorem evalI_succ (f : Nat) (a : AstNode) (st : ESt) :
    evalI (f + 1) a st = evalF (evalI f) a st := rfl

theorem pb_succ (f : Nat) : pb (f + 1) = pbStep (pb f) := rfl

theorem litOf_eval (f : Nat) (v : Ty) (st : ESt) :
    evalI (f + 1) (litOf v) st = .ok v st := by
  cases v <;> rfl

theorem seqEvalBlock_cons_nonret (step : AstNode → ESt → Outcome)
    (s : AstNode) (rest : List AstNode) (st : ESt) (hs : isRet s = false) :
    seqEvalBlock step (s :: rest) st =
      match unwrapO (step s st) with
      | .ok _ st1 => seqEvalBlock step rest st1
      | .fatal f => .fatal f
      | .oof => .oof := by
  cases s <;> first | rfl | simp [isRet] at hs

theorem seqEvalRoot_cons_nonret (step : AstNode → ESt → Outcome) (acc : Ty)
    (s : AstNode) (rest : List AstNode) (st : ESt) (hs : isRet s = false) :
    seqEvalRoot step acc (s :: rest) st =
      match unwrapO (step s st) with
      | .ok v st1 => seqEvalRoot step v rest st1
      | .fatal f => .fatal f
      | .oof => .oof := by
  cases s <;> first | rfl | simp [isRet] at hs

theorem seqEvalBlock_ok_nil (step : AstNode → ESt → Outcome) :
    ∀ (stmts : List AstNode) (st : ESt) (v : Ty) (st1 : ESt),
      seqEvalBlock step stmts st = .ok v st1 → v = .Nil := by
  intro stmts
  induction stmts with
  | nil =>
    intro st v st1 h
    injection h with h1 _
    exact h1.symm
  | cons s rest ih =>
    intro st v st1 h
    cases hs : isRet s with
    | false =>
      rw [seqEvalBlock_cons_nonret step s rest st hs] at h
      split at h
      · exact ih _ _ _ h
      · simp_all
      · simp_all
    | true =>
      obtain ⟨e, rfl⟩ : ∃ e, s = .RetStmt e := by
        cases s <;> first | exact ⟨_, rfl⟩ | simp [isRet] at hs
      simp only [seqEvalBlock] at h
      split at h <;> simp_all

theorem seqEvalRoot_append_last (step : AstNode → ESt → Outcome) :
    ∀ (stmts : List AstNode) (acc : Ty) (s : AstNode) (st : ESt) (v : Ty) (st1 : ESt),
      isRet s = false →
      seqEvalRoot step acc (stmts ++ [s]) st = .ok v st1 →
      ∃ st0, unwrapO (step s st0) = .ok v st1 := by
  intro stmts
  induction stmts with
  | nil =>
    intro acc s st v st1 hs h
    rw [List.nil_append, seqEvalRoot_cons_nonret step acc s [] st hs] at h
    split at h
    case _ v0 st0 heq =>
      injection h with h1 h2
      exact ⟨st, by rw [heq, h1, h2]⟩
    · simp_all
    · simp_all
  | cons x xs ih =>
    intro acc s st v st1 hs h
    rw [List.cons_append] at h
    cases hx : isRet x with
    | false =>
      rw [seqEvalRoot_cons_nonret step acc x (xs ++ [s]) st hx] at h
      split at h
      · exact ih _ _ _ _ _ hs h
      · simp_all
      · simp_all
    | true =>
      obtain ⟨e, rfl⟩ : ∃ e, x = .RetStmt e := by
        cases x <;> first | exact ⟨_, rfl⟩ | simp [isRet] at hx
      simp only [seqEvalRoot] at h
      split at h <;> simp_all

/-- C1: a `ret` statement reached in the top-level `ProgramRoot`
statement list does NOT terminate evaluation normally with the returned
value: the `ProgramRoot` arm re-raises `Err(Internal::Return(v))`, the
unwind escapes the outermost program boundary, and `Env::eval`'s
`.unwrap()` panics instead of returning a Value — shown on the program
`ret 5`. -/
theorem c1_top_level_ret_escapes :
    evalI 2 (.ProgramRoot [.RetStmt (.Number 5)]) initEnv = .ret (.Number 5) initEnv ∧
    topEval 2 (.ProgramRoot [.RetStmt (.Number 5)]) initEnv = none := by
  exact ⟨rfl, rfl⟩

/-- C2 (counterexample): the input `nonlocal 1` lexes fine but makes
`parse()` abort the process through the non-assignment-after-`nonlocal`
panic, rather than return any AST. -/
theorem c2_counterexample :
    lexString "nonlocal 1" = some [.Nonlocal, .Number 1] ∧
    parseSrc "nonlocal 1" 64 = some .panicked := by
  exact ⟨rfl, rfl⟩

/-- C2 (amended): whenever any sub-parser yields a parse diagnostic
(`Err`), `parse()` swallows it and returns the neutral `Nil` program;
the panic paths (`nonlocal` not followed by an assignment, a missing
identifier after a comma in a `fn` parameter list) are not covered by
this containment. -/
theorem c2_err_yields_nil :
    ∀ (toks : List Token) (f : Nat) (e : PError) (r : List Token),
      (pb f).program toks = .err e r → parseTop toks f = .ast .Nil := by
  intro toks f e r h
  unfold parseTop
  rw [h]

/-- C2 witness: on the malformed input `(1 + 2`, `parse_program` yields
the UnclosedGrouping diagnostic and `parse()` returns the `Nil` program. -/
theorem c2_err_yields_nil_witness :
    parseTop [.OpenParen, .Number 1, .Plus, .Number 2] 64 = .ast .Nil :=
  c2_err_yields_nil [.OpenParen, .Number 1, .Plus, .Number 2] 64
    (.UnclosedGrouping .OpenParen) [] rfl

/-- C3 (counterexample): a `while` whose condition evaluates to the
non-Boolean `Number 1` is NOT a fatal condition-type error: the loop
silently exits and the statement yields `Nil`. -/
theorem c3_counterexample :
    evalI 2 (.WhileStmt (.Number 1) (.Program [])) initEnv = .ok .Nil initEnv ∧
    evalI 2 (.WhileStmt (.Number 1) (.Program [])) initEnv ≠ .fatal .condType := by
  exact ⟨rfl, by decide⟩

/-- C3 (amended): an `if` whose condition evaluates to a non-Boolean
value is the fatal condition-type error (`exit(5)`); `while` re-evaluates
its condition before every iteration, but an iteration whose condition
evaluates to a non-Boolean value silently exits the loop with `Nil`
instead of failing. -/
theorem c3_if_fatal_while_silent :
    (∀ (f : Nat) (c t : AstNode) (e : Option AstNode) (st st1 : ESt) (v : Ty),
        unwrapO (evalI f c st) = .ok v st1 → (∀ b, v ≠ .Boolean b) →
        evalI (f + 1) (.IfStmt c t e) st = .fatal .condType) ∧
    (∀ (f : Nat) (c b : AstNode) (st st1 : ESt) (v : Ty),
        unwrapO (evalI f c st) = .ok v st1 → (∀ bo, v ≠ .Boolean bo) →
        evalI (f + 1) (.WhileStmt c b) st = .ok .Nil st1) ∧
    (∀ (f : Nat) (c b : AstNode) (st st1 st2 : ESt) (v : Ty),
        unwrapO (evalI f c st) = .ok (.Boolean true) st1 →
        evalI f b st1 = .ok v st2 →
        evalI (f + 1) (.WhileStmt c b) st = evalI f (.WhileStmt c b) st2) := by
  refine ⟨?_, ?_, ?_⟩
  · intro f c t e st st1 v h hv
    rw [evalI_succ]
    simp only [evalF]
    rw [h]
    cases v with
    | Boolean b => exact absurd rfl (hv b)
    | Number n => rfl
    | String s => rfl
    | Nil => rfl
  · intro f c b st st1 v h hv
    rw [evalI_succ]
    simp only [evalF]
    rw [h]
    cases v with
    | Boolean b => exact absurd rfl (hv b)
    | Number n => rfl
    | String s => rfl
    | Nil => rfl
  · intro f c b st st1 st2 v h1 h2
    rw [evalI_succ]
    simp only [evalF]
    rw [h1]
    show (match evalI f b st1 with
          | .ok _ st2 => evalI f (.WhileStmt c b) st2
          | .ret v0 st2 => .ret v0 st2
          | .fatal f0 => .fatal f0
          | .oof => .oof) = evalI f (.WhileStmt c b) st2
    rw [h2]

/-- C3 witness: a concrete fatal `if` (condition `Number 1`) and a
concrete silent `while` exit, obtained from the theorem. -/
theorem c3_if_fatal_while_silent_witness :
    evalI 2 (.IfStmt (.Number 1) .Nil none) initEnv = .fatal .condType ∧
    evalI 2 (.WhileStmt (.Number 2) .Nil) initEnv = .ok .Nil initEnv := by
  constructor
  · exact c3_if_fatal_while_silent.1 1 (.Number 1) .Nil none initEnv initEnv
      (.Number 1) rfl (fun b hb => Ty.noConfusion hb)
  · exact c3_if_fatal_while_silent.2.1 1 (.Number 2) .Nil initEnv initEnv
      (.Number 2) rfl (fun bo hb => Ty.noConfusion hb)

/-- C4 (counterexample): the full pipeline on the source
`if 1 > 2 : "a" else "b" ;` does not yield `String("b")`. -/
theorem c4_counterexample :
    runSrc "if 1 > 2 : \"a\" else \"b\" ;" 64 ≠ some (Ty.String "b") := by
  decide

/-- C4 (amended): parsing and then evaluating the source text
`if 1 > 2 : "a" else "b" ;` in a fresh environment yields `Nil`: the
branches of an `if` are nested `Program` blocks, which always evaluate
to `Nil`, and that `Nil` is what the top level sees. -/
theorem c4_if_else_yields_nil :
    runSrc "if 1 > 2 : \"a\" else \"b\" ;" 64 = some Ty.Nil := by
  rfl

/-- C5: `and`/`or` evaluate both operands unconditionally — the right
operand is evaluated in the environment left by the left operand, and its
environment effect (`st2`) survives into the result even when the left
operand already decides the answer; both operands must be Boolean, any
other kinds being the fatal binary-type error. -/
theorem c5_no_short_circuit :
    ∀ (f : Nat) (l r : AstNode) (st st1 st2 : ESt) (v1 v2 : Ty),
      unwrapO (evalI f l st) = .ok v1 st1 →
      unwrapO (evalI f r st1) = .ok v2 st2 →
      (evalI (f + 1) (.BinaryExpr .And l r) st =
        match v1, v2 with
        | .Boolean a, .Boolean b => .ok (.Boolean (a && b)) st2
        | _, _ => .fatal .binaryType) ∧
      (evalI (f + 1) (.BinaryExpr .Or l r) st =
        match v1, v2 with
        | .Boolean a, .Boolean b => .ok (.Boolean (a || b)) st2
        | _, _ => .fatal .binaryType) := by
  intro f l r st st1 st2 v1 v2 h1 h2
  constructor <;>
    (rw [evalI_succ]
     simp only [evalF]
     rw [h1]
     show (match unwrapO (evalI f r st1) with
           | .ok v2 st2 =>
             match applyBin _ v1 v2 with
             | some v => Outcome.ok v st2
             | none => .fatal .binaryType
           | .fatal f0 => .fatal f0
           | .oof => .oof) = _
     rw [h2]
     cases v1 <;> cases v2 <;> rfl)

/-- C5 witness: `false and (x = 1) == nil` — the left side is already
false, yet the assignment inside the right side lands in the
environment, and the whole expression yields `Boolean false`. -/
theorem c5_no_short_circuit_witness :
    evalI 4 (.BinaryExpr .And (.Boolean false)
        (.BinaryExpr .EqualEqual (.Assignment "x" (.Number 1) false) .Nil)) initEnv =
      .ok (.Boolean false) (insertLocal initEnv "x" (.Number 1)) :=
  (c5_no_short_circuit 3 (.Boolean false)
    (.BinaryExpr .EqualEqual (.Assignment "x" (.Number 1) false) .Nil)
    initEnv initEnv (insertLocal initEnv "x" (.Number 1))
    (.Boolean false) (.Boolean true) rfl rfl).1

/-- C6: default assignment binds in the innermost scope only (outer
scopes untouched) and the shadowing binding is gone once the block's
child scope is popped; `nonlocal` assignment mutates the first scope of
the chain that already binds the name — visibly surviving the block —
skips scopes without the binding, and does nothing at all when no scope
in the chain binds the name. -/
theorem c6_scoping :
    (∀ (s : Scope) (rest : ESt) (id : String) (v : Ty),
        insertLocal (s :: rest) id v = { s with vars := listInsert s.vars id v } :: rest) ∧
    (∀ (f : Nat) (st : ESt) (id : String) (q : ℚ),
        evalI (f + 3) (.Program [.Assignment id (.Number q) false]) st = .ok .Nil st) ∧
    (∀ (f : Nat) (st : ESt) (id : String) (q : ℚ),
        evalI (f + 3) (.Program [.Assignment id (.Number q) true]) st =
          .ok .Nil (updateValue st id (.Number q))) ∧
    (∀ (s : Scope) (rest : ESt) (id : String) (v : Ty),
        (lookupA s.vars id).isSome = true →
        updateValue (s :: rest) id v = { s with vars := listInsert s.vars id v } :: rest) ∧
    (∀ (s : Scope) (rest : ESt) (id : String) (v : Ty),
        lookupA s.vars id = none →
        updateValue (s :: rest) id v = s :: updateValue rest id v) ∧
    (∀ (st : ESt) (id : String) (v : Ty),
        lookupVar st id = none → updateValue st id v = st) := by
  refine ⟨fun _ _ _ _ => rfl, fun _ _ _ _ => rfl, fun _ _ _ _ => rfl, ?_, ?_, ?_⟩
  · intro s rest id v h
    simp [updateValue, h]
  · intro s rest id v h
    simp [updateValue, h]
  · intro st
    induction st with
    | nil => intro id v _; rfl
    | cons s rest ih =>
      intro id v h
      cases hla : lookupA s.vars id with
      | some w => simp [lookupVar, hla] at h
      | none =>
        simp only [lookupVar, hla] at h
        simp [updateValue, hla, ih id v h]

/-- C6 witness: a bound name is mutated in place by `update_value`, an
unbound one leaves every scope unchanged. -/
theorem c6_scoping_witness :
    updateValue [⟨[("x", .Number 1)], []⟩] "x" (.Number 2) = [⟨[("x", .Number 2)], []⟩] ∧
    updateValue [⟨[("x", .Number 1)], []⟩] "y" (.Number 2) = [⟨[("x", .Number 1)], []⟩] := by
  constructor
  · exact c6_scoping.2.2.2.1 ⟨[("x", .Number 1)], []⟩ [] "x" (.Number 2) rfl
  · exact c6_scoping.2.2.2.2.2 [⟨[("x", .Number 1)], []⟩] "y" (.Number 2) rfl

/-- C7: `==`/`!=` applied to literals of any two values always produce a
Boolean by structural equality (the first two match arms catch every
pair of kinds), and the binary-type-error branch is unreachable for
these operators: `applyBin` is total on them. -/
theorem c7_equality_never_type_error :
    (∀ (f : Nat) (v1 v2 : Ty) (st : ESt),
        evalI (f + 1 + 1) (.BinaryExpr .EqualEqual (litOf v1) (litOf v2)) st =
          .ok (.Boolean (tyEq v1 v2)) st) ∧
    (∀ (f : Nat) (v1 v2 : Ty) (st : ESt),
        evalI (f + 1 + 1) (.BinaryExpr .BangEqual (litOf v1) (litOf v2)) st =
          .ok (.Boolean (!tyEq v1 v2)) st) ∧
    (∀ (v1 v2 : Ty),
        (applyBin .EqualEqual v1 v2).isSome = true ∧
        (applyBin .BangEqual v1 v2).isSome = true) := by
  refine ⟨?_, ?_, ?_⟩
  · intro f v1 v2 st
    rw [evalI_succ]
    simp only [evalF, litOf_eval, unwrapO]
    cases v1 <;> cases v2 <;> rfl
  · intro f v1 v2 st
    rw [evalI_succ]
    simp only [evalF, litOf_eval, unwrapO]
    cases v1 <;> cases v2 <;> rfl
  · intro v1 v2
    cases v1 <;> cases v2 <;> exact ⟨rfl, rfl⟩

/-- C8: grouping is transparent — wrapping any expression in any number
of `Grouping` layers (parentheses) leaves its evaluation against any
environment unchanged, shown end-to-end on `(((4)))` vs `4`. -/
theorem c8_grouping_transparent :
    (∀ (n : Nat) (e : AstNode) (st : ESt) (o : Outcome),
        EvalsTo (nGroup n e) st o ↔ EvalsTo e st o) ∧
    runSrc "(((4)))" 64 = runSrc "4" 64 := by
  constructor
  · intro n e st o
    induction n with
    | zero => exact Iff.rfl
    | succ n ih =>
      constructor
      · rintro ⟨ho, f, hf⟩
        cases f with
        | zero => exact absurd hf.symm ho
        | succ g => exact ih.mp ⟨ho, g, hf⟩
      · intro h
        obtain ⟨ho, f, hf⟩ := ih.mpr h
        exact ⟨ho, f + 1, hf⟩
  · rfl

/-- C9: a nested-block `Program` node that finishes without a `ret`
unwind always yields `Nil` whatever its statements produced, while the
top-level `ProgramRoot` node yields the value of its last evaluated
statement. -/
theorem c9_block_nil_root_last :
    (∀ (f : Nat) (stmts : List AstNode) (st : ESt) (v : Ty) (st1 : ESt),
        evalI (f + 1) (.Program stmts) st = .ok v st1 → v = .Nil) ∧
    (∀ (f : Nat) (stmts : List AstNode) (s : AstNode) (st : ESt) (v : Ty) (st1 : ESt),
        isRet s = false →
        evalI (f + 1) (.ProgramRoot (stmts ++ [s])) st = .ok v st1 →
        ∃ st0, unwrapO (evalI f s st0) = .ok v st1) := by
  constructor
  · intro f stmts st v st1 h
    rw [evalI_succ] at h
    simp only [evalF] at h
    cases hb : seqEvalBlock (evalI f) stmts (emptyScope :: st) with
    | ok v0 s0 =>
      rw [hb] at h
      simp only [popSt] at h
      injection h with h1 _
      exact h1 ▸ seqEvalBlock_ok_nil (evalI f) stmts (emptyScope :: st) v0 s0 hb
    | ret v0 s0 => rw [hb] at h; simp [popSt] at h
    | fatal f0 => rw [hb] at h; simp [popSt] at h
    | oof => rw [hb] at h; simp [popSt] at h
  · intro f stmts s st v st1 hs h
    rw [evalI_succ] at h
    simp only [evalF] at h
    exact seqEvalRoot_append_last (evalI f) stmts .Nil s st v st1 hs h

/-- C9 witness: the empty block yields `Nil`, and a singleton-root
program yields its (non-`ret`) statement's value. -/
theorem c9_block_nil_root_last_witness :
    Ty.Nil = Ty.Nil ∧
    ∃ st0, unwrapO (evalI 1 (.Number 5) st0) = .ok (.Number 5) initEnv := by
  constructor
  · exact c9_block_nil_root_last.1 2 [] initEnv .Nil initEnv rfl
  · exact c9_block_nil_root_last.2 1 [] (.Number 5) initEnv (.Number 5) initEnv rfl rfl

/-- C10: evaluating any `Assignment` node yields the value `Nil` (never
the assigned value), with the binding update — local insert or
`update_value` according to the `nonlocal` flag — as its state effect. -/
theorem c10_assignment_yields_nil :
    ∀ (f : Nat) (id : String) (e : AstNode) (nl : Bool) (st st1 : ESt) (v : Ty),
      unwrapO (evalI f e st) = .ok v st1 →
      evalI (f + 1) (.Assignment id e nl) st =
        .ok .Nil (if nl then updateValue st1 id v else insertLocal st1 id v) := by
  intro f id e nl st st1 v h
  rw [evalI_succ]
  simp only [evalF]
  rw [h]

/-- C10 witness: a concrete local assignment evaluates to `Nil` while
binding `x` in the innermost scope. -/
theorem c10_assignment_yields_nil_witness :
    evalI 2 (.Assignment "x" (.Number 7) false) initEnv =
      .ok .Nil (insertLocal initEnv "x" (.Number 7)) :=
  c10_assignment_yields_nil 1 "x" (.Number 7) false initEnv initEnv (.Number 7) rfl

end Kotoba
